import Mathlib

/-!
# Verification of the iRacingManager process supervision engine

Shallow embedding of the supervision core of the iRacingManager repository:

* `src/src/core/process_manager.py` — `ProcessManager` (startup sequencing,
  persistent minimization, termination, tracking queries);
* `src/src/core/iracing_watcher.py` — `iRacingWatcher` (liveness polling loop
  and exit callback);
* `src/src/utils/window_manager.py` — `WindowManager.minimize_window`.

Conventions of the embedding:

* Python's `dict` keyed by program name becomes an insertion-ordered
  association list `List (String × ProcEntry)`; `dict[k] = v` updates in place
  when the key exists and appends otherwise, `del dict[k]` filters the key out.
* The OS is an oracle: each tracked process carries the answers the OS gives
  to the `poll()` calls the code performs (`running`: first `poll() is None`
  check; `runningAfterTerm`: the re-`poll()` done immediately after
  `psutil.Process.terminate()`; `psutilFound`: whether the `psutil.Process(pid)`
  lookup succeeds, `False` meaning `psutil.NoSuchProcess` is raised and
  swallowed by the source's handler).
* The code targets Windows with `psutil`/`pywin32` present (`_check_requirements`
  exits otherwise), so `WINDOWS_IMPORTS_AVAILABLE` is taken as `true` and the
  non-`psutil` fallback branches are not modelled.  OS exceptions other than
  the ones the source handles by name are not produced by the oracle.
* `time.sleep` and OS signals become events in an explicit trace
  (`OsEvent`), so statements about "no grace wait between terminate and kill"
  are statements about the produced trace.
* Threaded helper startup (`ThreadPoolExecutor`) is serialized in submission
  order; helper submission happens only after the main program's handler has
  returned, which is the ordering fact the claims use.
-/

namespace IRM

/-- OS-level answers for one tracked process, as consulted by
`ProcessManager.terminate_program`. -/
structure ProcState where
  /-- `proc.poll() is None` at the first check (process still running). -/
  running : Bool
  /-- `proc.poll() is None` immediately after `psutil.Process.terminate()`. -/
  runningAfterTerm : Bool
  /-- `psutil.Process(pid)` succeeds; `false` means `psutil.NoSuchProcess`. -/
  psutilFound : Bool
deriving Repr, DecidableEq

/-- One value of the `self.processes[name]` dict of `ProcessManager`. -/
structure ProcEntry where
  pid : Nat
  st : ProcState
  wasMinimized : Bool
deriving Repr, DecidableEq

/-- The mutable state of a `ProcessManager` instance:
`self.processes`, `self._terminated_programs`, `self.main_program_name`. -/
structure PMState where
  processes : List (String × ProcEntry)
  terminated : List String
  mainProgramName : Option String
deriving Repr, DecidableEq

/-- A fresh `ProcessManager` (its `__init__`). -/
def pmInit : PMState := ⟨[], [], none⟩

/-- Python `dict` assignment `d[k] = v`: replace in place, else append. -/
def dictInsert (l : List (String × ProcEntry)) (k : String) (v : ProcEntry) :
    List (String × ProcEntry) :=
  if l.any (fun p => p.1 == k) then
    l.map (fun p => if p.1 == k then (k, v) else p)
  else l ++ [(k, v)]

/-- Python `del d[k]`. -/
def dictErase (l : List (String × ProcEntry)) (k : String) :
    List (String × ProcEntry) :=
  l.filter (fun p => !(p.1 == k))

/-- OS-visible actions performed by the termination path, in order. -/
inductive OsEvent where
  | pollCheck (pid : Nat)
  | sigTerm (pid : Nat)
  | sigKill (pid : Nat)
  | sleepMs (ms : Nat)
deriving Repr, DecidableEq

/-- The `SIGKILL`-class events of a trace (`process.kill()` calls). -/
def killEvents (evs : List OsEvent) : List OsEvent :=
  evs.filter (fun e => match e with | .sigKill _ => true | _ => false)

/-- The sleep events of a trace (`time.sleep` calls). -/
def sleepEvents (evs : List OsEvent) : List OsEvent :=
  evs.filter (fun e => match e with | .sleepMs _ => true | _ => false)

/-- `ProcessManager.terminate_program` (src/src/core/process_manager.py,
lines 297–373).  Returns the boolean result, the successor state, and the
ordered trace of OS calls it made.

Source shape: if the name is already in `self._terminated_programs`, return
`True` at once; if it is not tracked, return `False`; otherwise record the
name, then inside `try`: if `proc.poll() is None`, do
`psutil.Process(pid).terminate()` and, immediately re-polling with no
intervening sleep, `process.kill()` if still running
(`psutil.NoSuchProcess` is swallowed); finally delete the tracking entry and
return `True`. -/
def terminate_program (s : PMState) (name : String) :
    Bool × PMState × List OsEvent :=
  if name ∈ s.terminated then
    (true, s, [])
  else
    match s.processes.lookup name with
    | none => (false, s, [])
    | some entry =>
      let s1 : PMState := { s with terminated := name :: s.terminated }
      let evs :=
        [OsEvent.pollCheck entry.pid] ++
        (if entry.st.running then
          if entry.st.psutilFound then
            [OsEvent.sigTerm entry.pid, OsEvent.pollCheck entry.pid] ++
            (if entry.st.runningAfterTerm then [OsEvent.sigKill entry.pid] else [])
          else []
        else [])
      (true, { s1 with processes := dictErase s1.processes name }, evs)

/-- The `for name in program_names` loop of
`ProcessManager.terminate_all_programs` (src/src/core/process_manager.py,
lines 374–421): call `terminate_program` on each snapshot name that is still
tracked and not already recorded terminated, accumulating the OS trace.
(The trailing wait on helper futures has no effect on the modelled state.) -/
def taf_go : List String → PMState × List OsEvent → PMState × List OsEvent
  | [], acc => acc
  | n :: ns, acc =>
    if (acc.1.processes.lookup n).isSome && !(acc.1.terminated.contains n) then
      let t := terminate_program acc.1 n
      taf_go ns (t.2.1, acc.2 ++ t.2.2)
    else taf_go ns acc

/-- `ProcessManager.terminate_all_programs` continued: early-return when
nothing is tracked, otherwise run the loop over the name snapshot and clear
`self.processes` and `self._terminated_programs`. -/
def terminate_all_programs (s : PMState) : PMState × List OsEvent :=
  if s.processes.isEmpty then (s, [])
  else
    let r := taf_go (s.processes.map (fun p => p.1)) (s, [])
    ({ r.1 with processes := [], terminated := [] }, r.2)

/-- `ProcessManager.is_program_running` (lines 423–437): `False` when the name
is not tracked, else `proc.poll() is None`. -/
def is_program_running (s : PMState) (name : String) : Bool :=
  match s.processes.lookup name with
  | none => false
  | some e => e.st.running

/-- The loop body of `ProcessManager.get_running_programs` folded over the
snapshot of tracked names: append running names to the result, delete the
entry of every name whose process has exited. -/
def grp_go : List String → List String × PMState → List String × PMState
  | [], acc => acc
  | n :: ns, acc =>
    if is_program_running acc.2 n then
      grp_go ns (acc.1 ++ [n], acc.2)
    else
      grp_go ns
        (acc.1, ⟨dictErase acc.2.processes n, acc.2.terminated, acc.2.mainProgramName⟩)

/-- `ProcessManager.get_running_programs` (lines 439–454): iterates over
`list(self.processes.keys())`, keeps the running names, and deletes every
entry whose process has exited, returning the running names. -/
def get_running_programs (s : PMState) : List String × PMState :=
  grp_go (s.processes.map (fun p => p.1)) ([], s)

/-! ## C1 — idempotent termination -/

/-- **C1**: for a currently tracked program name `n`, `terminate_program`
returns `true` twice in a row, the two calls together perform at most one
OS-level `kill()` attempt, and the second call performs no OS calls at all
and leaves the process map (indeed the whole manager state) unchanged. -/
theorem terminate_idempotent (s : PMState) (n : String)
    (h : (s.processes.lookup n).isSome = true) :
    (terminate_program s n).1 = true ∧
    (terminate_program (terminate_program s n).2.1 n).1 = true ∧
    (killEvents ((terminate_program s n).2.2 ++
      (terminate_program (terminate_program s n).2.1 n).2.2)).length ≤ 1 ∧
    (terminate_program (terminate_program s n).2.1 n).2.2 = [] ∧
    (terminate_program (terminate_program s n).2.1 n).2.1 =
      (terminate_program s n).2.1 := by
  rcases Option.isSome_iff_exists.mp h with ⟨e, he⟩
  by_cases hn : n ∈ s.terminated
  · simp [terminate_program, hn, killEvents]
  · simp only [terminate_program, hn, if_false, he, if_neg]
    cases hr : e.st.running <;> cases hp : e.st.psutilFound <;>
      cases hk : e.st.runningAfterTerm <;>
        simp [killEvents, List.mem_cons, hn]

/-- Witness for C1 at a concrete one-process manager state. -/
def pmC1 : PMState := ⟨[("a", ⟨7, ⟨true, true, true⟩, false⟩)], [], none⟩

/-- C1 witness: the hypotheses and conclusion of `terminate_idempotent`
hold at the concrete state `pmC1` and name `"a"`. -/
theorem terminate_idempotent_witness :
    ((pmC1.processes.lookup "a").isSome = true) ∧
    ((terminate_program pmC1 "a").1 = true ∧
     (terminate_program (terminate_program pmC1 "a").2.1 "a").1 = true ∧
     (killEvents ((terminate_program pmC1 "a").2.2 ++
       (terminate_program (terminate_program pmC1 "a").2.1 "a").2.2)).length ≤ 1 ∧
     (terminate_program (terminate_program pmC1 "a").2.1 "a").2.2 = [] ∧
     (terminate_program (terminate_program pmC1 "a").2.1 "a").2.1 =
       (terminate_program pmC1 "a").2.1) :=
  ⟨by decide, terminate_idempotent pmC1 "a" (by decide)⟩

/-! ## C4 — escalation from graceful terminate to kill -/

/-- `terminate_program` never changes `main_program_name`. -/
theorem terminate_program_main_eq (s : PMState) (n : String) :
    (terminate_program s n).2.1.mainProgramName = s.mainProgramName := by
  unfold terminate_program
  split
  · rfl
  · cases s.processes.lookup n <;> rfl

/-- Concrete state for C4: `"a"` is tracked, running, found by `psutil`, and
still reported running by the `poll()` made immediately after `terminate()`. -/
def pmC4 : PMState := ⟨[("a", ⟨7, ⟨true, true, true⟩, false⟩)], [], none⟩

/-- **C4 counterexample**: terminating a running tracked program sends the
graceful terminate signal and the forceful kill signal, but the OS trace
contains no sleep at all — the source re-polls immediately after
`terminate()` (its older generation even comments "We rely on terminating
without waiting"), so the claimed ≈0.5s grace window between the two signals
does not exist. -/
theorem terminate_grace_window_counterexample :
    OsEvent.sigTerm 7 ∈ (terminate_program pmC4 "a").2.2 ∧
    OsEvent.sigKill 7 ∈ (terminate_program pmC4 "a").2.2 ∧
    sleepEvents (terminate_program pmC4 "a").2.2 = [] := by decide

/-- **C4 (amended)**: when `terminate_program` finds the tracked process
still running (and the `psutil` lookup succeeds), it sends the graceful
terminate signal and immediately re-polls, with no sleep anywhere in the
trace; it escalates to the forceful kill signal iff that immediate re-poll
still reports the process running. -/
theorem terminate_escalation_no_wait (s : PMState) (n : String) (e : ProcEntry)
    (h1 : n ∉ s.terminated) (h2 : s.processes.lookup n = some e)
    (h3 : e.st.running = true) (h4 : e.st.psutilFound = true) :
    (terminate_program s n).2.2 =
      [OsEvent.pollCheck e.pid, OsEvent.sigTerm e.pid, OsEvent.pollCheck e.pid] ++
      (if e.st.runningAfterTerm then [OsEvent.sigKill e.pid] else []) ∧
    sleepEvents (terminate_program s n).2.2 = [] ∧
    ((OsEvent.sigKill e.pid ∈ (terminate_program s n).2.2) ↔
      e.st.runningAfterTerm = true) := by
  unfold terminate_program
  rw [if_neg h1, h2]
  cases hk : e.st.runningAfterTerm <;> simp [sleepEvents, h3, h4, hk]

/-- C4 witness: `terminate_escalation_no_wait` applied at `pmC4`. -/
theorem terminate_escalation_no_wait_witness :
    ("a" ∉ pmC4.terminated) ∧
    ((terminate_program pmC4 "a").2.2 =
      [OsEvent.pollCheck 7, OsEvent.sigTerm 7, OsEvent.pollCheck 7] ++
      (if (true : Bool) then [OsEvent.sigKill 7] else []) ∧
     sleepEvents (terminate_program pmC4 "a").2.2 = [] ∧
     ((OsEvent.sigKill 7 ∈ (terminate_program pmC4 "a").2.2) ↔ (true : Bool) = true)) :=
  ⟨by decide, terminate_escalation_no_wait pmC4 "a" ⟨7, ⟨true, true, true⟩, false⟩
    (by decide) (by decide) (by decide) (by decide)⟩

/-! ## C5 — terminate-all clears tracking state -/

/-- The terminate-all loop never changes `main_program_name`. -/
theorem taf_go_main (ns : List String) (acc : PMState × List OsEvent) :
    (taf_go ns acc).1.mainProgramName = acc.1.mainProgramName := by
  induction ns generalizing acc with
  | nil => rfl
  | cons n ns ih =>
    unfold taf_go
    split
    · rw [ih, terminate_program_main_eq]
    · exact ih acc

/-- Concrete state for C5: a single tracked program `"a"`. -/
def pmC5 : PMState := ⟨[("a", ⟨7, ⟨true, false, true⟩, false⟩)], [], none⟩

/-- **C5 counterexample**: terminating the only tracked program leaves the
process map empty but `"a"` in the termination record; a subsequent
`terminate_all_programs` hits the `if not self.processes: return` early exit
and returns with the termination record still non-empty — so "after any call
to terminateAll() … the termination record [is] empty" fails. -/
theorem terminate_all_record_counterexample :
    ((terminate_program pmC5 "a").2.1.processes = [] ∧
     (terminate_program pmC5 "a").2.1.terminated = ["a"]) ∧
    (terminate_all_programs (terminate_program pmC5 "a").2.1).1.terminated ≠ [] := by
  decide

/-! ## C10 — `get_running_programs` prunes exited entries -/

/-- Deleting key `n` does not change lookups of other keys. -/
theorem lookup_dictErase (l : List (String × ProcEntry)) (m n : String)
    (h : m ≠ n) : (dictErase l n).lookup m = l.lookup m := by
  induction l with
  | nil => rfl
  | cons q t ih =>
    rcases q with ⟨k, v⟩
    by_cases hq : k = n
    · subst hq
      have hm : (m == k) = false := by simp [h]
      simp only [dictErase, List.filter_cons, beq_self_eq_true, Bool.not_true,
        if_false, List.lookup, hm] at ih ⊢
      exact ih
    · have hkn : (k == n) = false := by simp [hq]
      by_cases hmq : m = k
      · subst hmq
        simp [dictErase, List.filter_cons, List.lookup, hkn]
      · have hmk : (m == k) = false := by simp [hmq]
        simp only [dictErase, List.filter_cons, hkn, Bool.not_false, if_true,
          List.lookup, hmk] at ih ⊢
        exact ih

/-- `is_program_running` is unchanged by deleting a different name. -/
theorem is_program_running_dictErase (st : PMState) (m n : String) (h : m ≠ n) :
    is_program_running ⟨dictErase st.processes n, st.terminated, st.mainProgramName⟩ m =
      is_program_running st m := by
  simp [is_program_running, lookup_dictErase _ _ _ h]

/-- With duplicate-free keys (the Python `dict` invariant), looking up the
key of a member entry returns that entry's value. -/
theorem lookup_of_mem_nodup (l : List (String × ProcEntry)) (p : String × ProcEntry)
    (hnd : (l.map (fun q => q.1)).Nodup) (hm : p ∈ l) :
    l.lookup p.1 = some p.2 := by
  induction l with
  | nil => cases hm
  | cons q t ih =>
    simp only [List.map_cons, List.nodup_cons] at hnd
    rcases List.mem_cons.mp hm with rfl | hm'
    · simp [List.lookup]
    · have h1 : (p.1 == q.1) = false := by
        simp only [beq_eq_false_iff_ne, ne_eq]
        intro he
        exact hnd.1 (he ▸ List.mem_map_of_mem (fun q => q.1) hm')
      simp [List.lookup, h1, ih hnd.2 hm']

/-- Keys of a filtered association list, when the predicate only inspects
the key. -/
theorem keys_filter_comm (l : List (String × ProcEntry)) (f : String → Bool) :
    (l.map (fun p => p.1)).filter f = (l.filter (fun p => f p.1)).map (fun p => p.1) := by
  induction l with
  | nil => rfl
  | cons p t ih => by_cases hf : f p.1 <;> simp [hf, ih]

/-- Closed form of the `get_running_programs` loop: starting from state `st`
and accumulator `res`, and given a duplicate-free name list `ns`, the loop
appends to `res` exactly the names of `ns` that are running in `st` and
filters the process map down to the entries that are either not named in
`ns` or running. -/
theorem grp_go_spec (ns : List String) (res : List String) (st : PMState)
    (h : ns.Nodup) :
    grp_go ns (res, st) =
      (res ++ ns.filter (fun n => is_program_running st n),
       ⟨st.processes.filter
           (fun p => !(ns.contains p.1) || is_program_running st p.1),
        st.terminated, st.mainProgramName⟩) := by
  induction ns generalizing res st with
  | nil => simp [grp_go]
  | cons n ns ih =>
    have hn : n ∉ ns := (List.nodup_cons.mp h).1
    have hns : ns.Nodup := (List.nodup_cons.mp h).2
    by_cases hr : is_program_running st n
    · rw [grp_go, if_pos hr, ih _ _ hns]
      refine Prod.ext ?_ ?_
      · simp [hr]
      · dsimp only
        congr 1
        refine List.filter_congr ?_
        intro p _
        by_cases hp : p.1 = n
        · simp [hp, hr]
        · simp [List.contains_cons, hp]
    · rw [grp_go, if_neg hr,
        ih _ ⟨dictErase st.processes n, st.terminated, st.mainProgramName⟩ hns]
      have hrb : is_program_running st n = false := by
        simpa using hr
      have hfilter_ns :
          ns.filter (fun m => is_program_running
            ⟨dictErase st.processes n, st.terminated, st.mainProgramName⟩ m) =
          ns.filter (fun m => is_program_running st m) := by
        refine List.filter_congr ?_
        intro m hm
        exact is_program_running_dictErase st m n (fun he => hn (he ▸ hm))
      have hfilter_cons :
          (n :: ns).filter (fun m => is_program_running st m) =
          ns.filter (fun m => is_program_running st m) := by
        simp [List.filter_cons, hrb]
      have hmap : (dictErase st.processes n).filter
            (fun p => !(ns.contains p.1) || is_program_running
              ⟨dictErase st.processes n, st.terminated, st.mainProgramName⟩ p.1) =
          st.processes.filter
            (fun p => !((n :: ns).contains p.1) || is_program_running st p.1) := by
        unfold dictErase
        rw [List.filter_filter]
        refine List.filter_congr ?_
        intro p _
        by_cases hp : p.1 = n
        · simp [hp, hrb]
        · have hiso := is_program_running_dictErase st p.1 n hp
          unfold dictErase at hiso
          have hpn : (p.1 == n) = false := by simp [hp]
          simp [List.contains_cons, hpn, hiso, hp]
      refine Prod.ext ?_ ?_
      · dsimp only
        rw [hfilter_ns, hfilter_cons]
      · dsimp only
        congr 1

/-- **C10**: `get_running_programs` mutates the tracked-process map: given
duplicate-free tracked names (the Python `dict` invariant), after it returns
the map holds exactly the previously tracked entries whose `poll()` reports
them alive (exited entries are removed), the returned list is exactly the
names remaining in the map, and no other manager state is touched. -/
theorem get_running_programs_spec (s : PMState)
    (h : (s.processes.map (fun p => p.1)).Nodup) :
    (get_running_programs s).2.processes =
      s.processes.filter (fun p => p.2.st.running) ∧
    (get_running_programs s).1 =
      (get_running_programs s).2.processes.map (fun p => p.1) ∧
    (get_running_programs s).2.terminated = s.terminated ∧
    (get_running_programs s).2.mainProgramName = s.mainProgramName := by
  have hnd : (s.processes.map (fun p => p.1)).Nodup := h
  have hkey : ∀ p ∈ s.processes, is_program_running s p.1 = p.2.st.running := by
    intro p hp
    simp [is_program_running, lookup_of_mem_nodup s.processes p h hp]
  have hproc : (get_running_programs s).2.processes =
      s.processes.filter (fun p => p.2.st.running) := by
    unfold get_running_programs
    rw [grp_go_spec _ _ _ hnd]
    dsimp only
    refine List.filter_congr ?_
    intro p hp
    have hc : (s.processes.map (fun p => p.1)).contains p.1 = true := by
      have : p.1 ∈ s.processes.map (fun p => p.1) :=
        List.mem_map_of_mem (fun p => p.1) hp
      simpa using this
    rw [hc, hkey p hp]
    simp
  refine ⟨hproc, ?_, ?_, ?_⟩
  · rw [hproc]
    have hfst : (get_running_programs s).1 =
        (s.processes.map (fun p => p.1)).filter (fun n => is_program_running s n) := by
      unfold get_running_programs
      rw [grp_go_spec _ _ _ hnd]
      simp
    rw [hfst, keys_filter_comm]
    congr 1
    exact List.filter_congr hkey
  · unfold get_running_programs
    rw [grp_go_spec _ _ _ hnd]
  · unfold get_running_programs
    rw [grp_go_spec _ _ _ hnd]

/-- Concrete state for the C10 witness: `"a"` running, `"b"` exited. -/
def pmC10 : PMState :=
  ⟨[("a", ⟨7, ⟨true, true, true⟩, false⟩), ("b", ⟨8, ⟨false, false, true⟩, true⟩)],
   ["x"], some "a"⟩

/-- C10 witness: `get_running_programs_spec` applied at `pmC10`. -/
theorem get_running_programs_spec_witness :
    ((pmC10.processes.map (fun p => p.1)).Nodup) ∧
    ((get_running_programs pmC10).2.processes =
      pmC10.processes.filter (fun p => p.2.st.running) ∧
    (get_running_programs pmC10).1 =
      (get_running_programs pmC10).2.processes.map (fun p => p.1) ∧
    (get_running_programs pmC10).2.terminated = pmC10.terminated ∧
    (get_running_programs pmC10).2.mainProgramName = pmC10.mainProgramName) :=
  ⟨by decide, get_running_programs_spec pmC10 (by decide)⟩

/-! ## C5 (continued) — terminate-all applies terminate to the snapshot -/

/-- The OS trace `terminate_program` emits for one tracked entry that is
not yet in the termination record. -/
def termEvents (e : ProcEntry) : List OsEvent :=
  [OsEvent.pollCheck e.pid] ++
  (if e.st.running then
    if e.st.psutilFound then
      [OsEvent.sigTerm e.pid, OsEvent.pollCheck e.pid] ++
      (if e.st.runningAfterTerm then [OsEvent.sigKill e.pid] else [])
    else []
  else [])

/-- Closed form of `terminate_program` on a tracked name that is not yet
recorded: it succeeds, records the name, deletes the entry and emits the
entry's termination trace. -/
theorem terminate_program_events (s : PMState) (n : String) (e : ProcEntry)
    (h1 : n ∉ s.terminated) (h2 : s.processes.lookup n = some e) :
    terminate_program s n =
      (true, ⟨dictErase s.processes n, n :: s.terminated, s.mainProgramName⟩,
       termEvents e) := by
  unfold terminate_program termEvents
  rw [if_neg h1, h2]

/-- A name that is a key of the association list has a successful lookup. -/
theorem lookup_isSome_of_mem_keys (l : List (String × ProcEntry)) (n : String)
    (h : n ∈ l.map (fun p => p.1)) : (l.lookup n).isSome = true := by
  induction l with
  | nil => simp at h
  | cons q t ih =>
    simp only [List.map_cons, List.mem_cons] at h
    by_cases hq : n = q.1
    · have hb : (n == q.1) = true := by simp [hq]
      simp [List.lookup, hb]
    · have hb : (n == q.1) = false := by simp [hq]
      rcases h with h | h
      · exact absurd h hq
      · simp [List.lookup, hb, ih h]

/-- Trace of the terminate-all loop: over duplicate-free names whose
lookups and recorded-status agree with the reference state `s`, the loop
appends exactly the `terminate_program` traces of the names that are
tracked in `s` and not already recorded in `s`. -/
theorem taf_go_trace (s : PMState) :
    ∀ (ns : List String) (acc : PMState × List OsEvent),
    ns.Nodup →
    (∀ n ∈ ns, acc.1.processes.lookup n = s.processes.lookup n) →
    (∀ n ∈ ns, n ∈ acc.1.terminated ↔ n ∈ s.terminated) →
    (taf_go ns acc).2 = acc.2 ++
      ((ns.filter (fun n => (s.processes.lookup n).isSome &&
          !(s.terminated.contains n))).map
        (fun n => (s.processes.lookup n).elim [] termEvents)).flatten := by
  intro ns
  induction ns with
  | nil =>
    intro acc _ _ _
    simp [taf_go]
  | cons n ns ih =>
    intro acc hnd hlook hterm
    have hn : n ∉ ns := (List.nodup_cons.mp hnd).1
    have hnd' : ns.Nodup := (List.nodup_cons.mp hnd).2
    have hlookn := hlook n (List.mem_cons_self n ns)
    have htermn := hterm n (List.mem_cons_self n ns)
    have hcontains : acc.1.terminated.contains n = s.terminated.contains n := by
      by_cases hmem : n ∈ s.terminated
      · have hin : n ∈ acc.1.terminated := htermn.mpr hmem
        simp [hmem, hin]
      · have hout : n ∉ acc.1.terminated := fun hx => hmem (htermn.mp hx)
        simp [hmem, hout]
    have hlook' : ∀ m ∈ ns, acc.1.processes.lookup m = s.processes.lookup m :=
      fun m hm => hlook m (List.mem_cons_of_mem n hm)
    have hterm' : ∀ m ∈ ns, (m ∈ acc.1.terminated ↔ m ∈ s.terminated) :=
      fun m hm => hterm m (List.mem_cons_of_mem n hm)
    by_cases hc : ((s.processes.lookup n).isSome &&
        !(s.terminated.contains n)) = true
    · have hparts := hc
      rw [Bool.and_eq_true] at hparts
      have hsome : (s.processes.lookup n).isSome = true := hparts.1
      have hnotterm : s.terminated.contains n = false := by
        have hb := hparts.2
        cases hv : s.terminated.contains n
        · rfl
        · rw [hv] at hb
          exact absurd hb (by decide)
      rcases Option.isSome_iff_exists.mp hsome with ⟨e, he⟩
      have hlookacc : acc.1.processes.lookup n = some e := by rw [hlookn, he]
      have hnoterm_acc : n ∉ acc.1.terminated := by
        intro hx
        have hms : n ∈ s.terminated := htermn.mp hx
        simp [hms] at hnotterm
      have hcondacc : ((acc.1.processes.lookup n).isSome &&
          !(acc.1.terminated.contains n)) = true := by
        rw [hlookacc, hcontains, hnotterm]
        rfl
      simp only [taf_go, hcondacc, if_true]
      rw [terminate_program_events acc.1 n e hnoterm_acc hlookacc]
      dsimp only
      rw [ih ⟨⟨dictErase acc.1.processes n, n :: acc.1.terminated,
            acc.1.mainProgramName⟩, acc.2 ++ termEvents e⟩ hnd'
          (fun m hm => by
            have hmn : m ≠ n := fun hmeq => hn (hmeq ▸ hm)
            dsimp only
            rw [lookup_dictErase acc.1.processes m n hmn]
            exact hlook' m hm)
          (fun m hm => by
            have hmn : m ≠ n := fun hmeq => hn (hmeq ▸ hm)
            dsimp only
            rw [List.mem_cons]
            constructor
            · intro hx
              rcases hx with hx | hx
              · exact absurd hx hmn
              · exact (hterm' m hm).mp hx
            · intro hx
              exact Or.inr ((hterm' m hm).mpr hx))]
      dsimp only
      have hc' : (((some e : Option ProcEntry)).isSome &&
          !(s.terminated.contains n)) = true := by
        rw [← he]
        exact hc
      simp only [List.filter_cons, he, hc', if_true, List.map_cons, List.flatten_cons,
        Option.elim, List.append_assoc]
    · have hcb : ((s.processes.lookup n).isSome &&
          !(s.terminated.contains n)) = false := by
        cases hv : ((s.processes.lookup n).isSome && !(s.terminated.contains n))
        · rfl
        · exact absurd hv hc
      have hcondacc : ((acc.1.processes.lookup n).isSome &&
          !(acc.1.terminated.contains n)) = false := by
        rw [hlookn, hcontains]
        exact hcb
      simp only [taf_go, hcondacc, Bool.false_eq_true, if_false]
      rw [ih acc hnd' hlook' hterm']
      simp only [List.filter_cons, hcb, Bool.false_eq_true, if_false]

/-- **C5 (amended)**: when at least one program is tracked,
`terminate_all_programs` applies `terminate_program` to every snapshot name
not already in the termination record — its OS trace is exactly the
concatenation of the per-entry termination traces over those snapshot
entries — and afterwards both the tracked-process map and the termination
record are empty (other state untouched); when nothing is tracked it is a
no-op that leaves the termination record as it was; and a repeated call
after any call is always a no-op (in particular repeated calls never error
— the function is total).  The duplicate-free key hypothesis is the Python
`dict` invariant. -/
theorem terminate_all_amended (s : PMState)
    (hnd : (s.processes.map (fun p => p.1)).Nodup) :
    (s.processes ≠ [] →
      (terminate_all_programs s).2 =
        ((s.processes.filter (fun p => !(s.terminated.contains p.1))).map
          (fun p => termEvents p.2)).flatten ∧
      (terminate_all_programs s).1.processes = [] ∧
      (terminate_all_programs s).1.terminated = [] ∧
      (terminate_all_programs s).1.mainProgramName = s.mainProgramName) ∧
    (s.processes = [] → terminate_all_programs s = (s, [])) ∧
    terminate_all_programs (terminate_all_programs s).1 =
      ((terminate_all_programs s).1, []) := by
  refine ⟨?_, ?_, ?_⟩
  · intro h
    have hne : s.processes.isEmpty = false := by
      cases hp : s.processes with
      | nil => exact absurd hp h
      | cons a l => rfl
    have htrace : (terminate_all_programs s).2 =
        ((s.processes.filter (fun p => !(s.terminated.contains p.1))).map
          (fun p => termEvents p.2)).flatten := by
      have hgo := taf_go_trace s (s.processes.map (fun p => p.1)) (s, [])
        hnd (fun n _ => rfl) (fun n _ => Iff.rfl)
      have h1 : (s.processes.map (fun p => p.1)).filter
            (fun n => (s.processes.lookup n).isSome && !(s.terminated.contains n)) =
          (s.processes.map (fun p => p.1)).filter
            (fun n => !(s.terminated.contains n)) := by
        refine List.filter_congr ?_
        intro n hmem
        rw [lookup_isSome_of_mem_keys s.processes n hmem, Bool.true_and]
      have h2 : (s.processes.map (fun p => p.1)).filter
            (fun n => !(s.terminated.contains n)) =
          (s.processes.filter (fun p => !(s.terminated.contains p.1))).map
            (fun p => p.1) :=
        keys_filter_comm s.processes _
      have h3 : ((s.processes.filter
              (fun p => !(s.terminated.contains p.1))).map (fun p => p.1)).map
            (fun n => (s.processes.lookup n).elim [] termEvents) =
          (s.processes.filter (fun p => !(s.terminated.contains p.1))).map
            (fun p => termEvents p.2) := by
        rw [List.map_map]
        refine List.map_congr_left ?_
        intro p hp
        have hpm : p ∈ s.processes := List.mem_of_mem_filter hp
        simp [Function.comp, lookup_of_mem_nodup s.processes p hnd hpm]
      simp only [terminate_all_programs, hne, Bool.false_eq_true, if_false]
      rw [hgo, h1, h2, h3]
      simp
    refine ⟨htrace, ?_⟩
    simp [terminate_all_programs, hne, taf_go_main]
  · intro h
    simp [terminate_all_programs, h]
  · by_cases hp : s.processes = []
    · simp [terminate_all_programs, hp]
    · have hne : s.processes.isEmpty = false := by
        cases hq : s.processes with
        | nil => exact absurd hq hp
        | cons a l => rfl
      simp only [terminate_all_programs, hne, Bool.false_eq_true, if_false]
      simp [terminate_all_programs]

/-- C5 witness: `terminate_all_amended` applied at the concrete one-process
state `pmC5`, whose single running entry makes the terminate trace
non-empty. -/
theorem terminate_all_amended_witness :
    (pmC5.processes ≠ [] →
      (terminate_all_programs pmC5).2 =
        ((pmC5.processes.filter (fun p => !(pmC5.terminated.contains p.1))).map
          (fun p => termEvents p.2)).flatten ∧
      (terminate_all_programs pmC5).1.processes = [] ∧
      (terminate_all_programs pmC5).1.terminated = [] ∧
      (terminate_all_programs pmC5).1.mainProgramName = pmC5.mainProgramName) ∧
    (pmC5.processes = [] → terminate_all_programs pmC5 = (pmC5, [])) ∧
    terminate_all_programs (terminate_all_programs pmC5).1 =
      ((terminate_all_programs pmC5).1, []) :=
  terminate_all_amended pmC5 (by decide)

/-! ## Liveness watcher (`src/src/core/iracing_watcher.py`) -/

/-- Outcome of one `psutil` liveness query on the watched process, as
consumed by `iRacingWatcher.is_process_running` (lines 84–100):
`is_running()` returned false; or it returned true and `status()` returned
the given string; or `psutil.NoSuchProcess` was raised; or some other
exception was raised while querying. -/
inductive ProcQuery where
  | notRunning
  | okStatus (st : String)
  | noSuchProcess
  | queryError
deriving Repr, DecidableEq

/-- `iRacingWatcher.is_process_running`: `False` when there is no process
object; `False` when `is_running()` is false; otherwise
`status() != "zombie"`; `psutil.NoSuchProcess` and any other exception
during the query are caught and yield `False`. -/
def is_process_running (hasProc : Bool) (q : ProcQuery) : Bool :=
  if !hasProc then false
  else
    match q with
    | .notRunning => false
    | .okStatus st => st != "zombie"
    | .noSuchProcess => false
    | .queryError => false

/-- One iteration's worth of observations made by the polling loop of
`iRacingWatcher._watch_process` (lines 136–167): whether `self._stop_event`
was set at the loop head, the liveness-query outcome, whether an exception
escaped the check itself (the loop's own `except` branch), and whether
`self._stop_event.wait(timeout=1.0)` reported the stop signal. -/
structure WatchStep where
  stopAtHead : Bool
  query : ProcQuery
  checkRaises : Bool
  stopDuringWait : Bool
deriving Repr, DecidableEq

/-- The `while not self._stop_event.is_set()` loop of `_watch_process`,
driven by a finite schedule of observations.  `some b` means the loop
exited with `process_terminated = b`; `none` means the schedule ran out
with the loop still polling. -/
def watch_loop (hasProc : Bool) : List WatchStep → Option Bool
  | [] => none
  | step :: rest =>
    if step.stopAtHead then some false
    else if step.checkRaises then some false
    else if !(is_process_running hasProc step.query) then some true
    else if step.stopDuringWait then some false
    else watch_loop hasProc rest

/-- `_watch_process` after the loop: when the loop exited with
`process_terminated` true and a callback is registered, invoke it inside
`try/except` (an `Except.error` is caught and logged, never re-raised).
The result is the number of callback invocations together with the logged
callback error, if any; `none` when the schedule did not end the loop. -/
def watch_process (hasProc : Bool) (steps : List WatchStep)
    (cb : Option (Unit → Except String Unit)) : Option (Nat × Option String) :=
  (watch_loop hasProc steps).map fun terminated =>
    if terminated then
      match cb with
      | none => (0, none)
      | some f =>
        match f () with
        | .ok _ => (1, none)
        | .error e => (1, some e)
    else (0, none)

/-! ## C2 — exactly-once exit callback -/

/-- **C2**: for every watch session whose polling loop ends (with
`process_terminated = t`), the watcher thread body returns a result (it
never propagates an exception), the registered callback is invoked at most
once, exactly once iff the loop ended by detecting the process dead, never
when the loop ended because of an explicit stop; and when the callback
raises, the error is caught and logged while the invocation still counts as
the single invocation. -/
theorem watcher_callback_exactly_once (hasProc : Bool) (steps : List WatchStep)
    (cb : Unit → Except String Unit) (t : Bool)
    (h : watch_loop hasProc steps = some t) :
    ∃ r, watch_process hasProc steps (some cb) = some r ∧
      r.1 ≤ 1 ∧
      (r.1 = 1 ↔ t = true) ∧
      (t = false → r = (0, none)) ∧
      (∀ e, t = true → cb () = Except.error e → r = (1, some e)) := by
  cases t with
  | false =>
    refine ⟨(0, none), ?_, ?_, ?_, ?_, ?_⟩
    · simp [watch_process, h]
    · simp
    · simp
    · intro _; rfl
    · intro e ht _; exact Bool.noConfusion ht
  | true =>
    cases hf : cb () with
    | ok u =>
      refine ⟨(1, none), ?_, ?_, ?_, ?_, ?_⟩
      · simp [watch_process, h, hf]
      · simp
      · simp
      · intro ht; exact Bool.noConfusion ht
      · intro e _ he; cases he
    | error e0 =>
      refine ⟨(1, some e0), ?_, ?_, ?_, ?_, ?_⟩
      · simp [watch_process, h, hf]
      · simp
      · simp
      · intro ht; exact Bool.noConfusion ht
      · intro e _ he
        cases he
        rfl

/-- C2 witness: a one-step schedule in which the process is observed dead
and the callback raises; `watcher_callback_exactly_once` applies and yields
exactly one (caught) invocation. -/
theorem watcher_callback_exactly_once_witness :
    ∃ r, watch_process true [⟨false, ProcQuery.notRunning, false, false⟩]
        (some (fun _ => Except.error "boom")) = some r ∧
      r.1 ≤ 1 ∧
      (r.1 = 1 ↔ (true : Bool) = true) ∧
      ((true : Bool) = false → r = (0, none)) ∧
      (∀ e, (true : Bool) = true →
        (fun _ => Except.error "boom" : Unit → Except String Unit) () =
          Except.error e → r = (1, some e)) :=
  watcher_callback_exactly_once true [⟨false, ProcQuery.notRunning, false, false⟩]
    (fun _ => Except.error "boom") true rfl

/-! ## C7 — conservative liveness check -/

/-- **C7**: the watcher's liveness check returns `true` only if a process
object exists and, when the query yields a status, that status is not
`"zombie"`; a zombie status, a vanished process (`NoSuchProcess`), or any
query error yields `false`; and a polling-loop iteration observing such a
not-running condition exits the loop at once (detecting termination)
instead of polling forever. -/
theorem liveness_check_conservative (hasProc : Bool) (q : ProcQuery)
    (step : WatchStep) (rest : List WatchStep)
    (h1 : step.stopAtHead = false) (h2 : step.checkRaises = false)
    (h3 : is_process_running hasProc step.query = false) :
    (is_process_running hasProc q = true →
      hasProc = true ∧ ∀ st, q = ProcQuery.okStatus st → st ≠ "zombie") ∧
    is_process_running hasProc (ProcQuery.okStatus "zombie") = false ∧
    is_process_running hasProc ProcQuery.noSuchProcess = false ∧
    is_process_running hasProc ProcQuery.queryError = false ∧
    watch_loop hasProc (step :: rest) = some true := by
  refine ⟨?_, ?_, ?_, ?_, ?_⟩
  · intro hq
    cases hasProc with
    | false => simp [is_process_running] at hq
    | true =>
      refine ⟨rfl, ?_⟩
      intro st hst
      subst hst
      simpa [is_process_running] using hq
  · cases hasProc <;> simp [is_process_running]
  · cases hasProc <;> simp [is_process_running]
  · cases hasProc <;> simp [is_process_running]
  · simp [watch_loop, h1, h2, h3]

/-- C7 witness: `liveness_check_conservative` applied at a concrete step
whose query says the process vanished. -/
theorem liveness_check_conservative_witness :
    ((is_process_running true (ProcQuery.okStatus "running") = true →
      (true : Bool) = true ∧ ∀ st,
        ProcQuery.okStatus "running" = ProcQuery.okStatus st → st ≠ "zombie") ∧
    is_process_running true (ProcQuery.okStatus "zombie") = false ∧
    is_process_running true ProcQuery.noSuchProcess = false ∧
    is_process_running true ProcQuery.queryError = false ∧
    watch_loop true [⟨false, ProcQuery.noSuchProcess, false, false⟩] = some true) :=
  liveness_check_conservative true (ProcQuery.okStatus "running")
    ⟨false, ProcQuery.noSuchProcess, false, false⟩ [] rfl rfl (by decide)

/-! ## Window manager (`src/src/utils/window_manager.py`)

`WindowManager.minimize_window` is driven by a window-source oracle: for
each attempt number, the list of window handles `find_process_windows`
returns on that attempt, and the answer `GetWindowPlacement` gives for each
handle after the `ShowWindow(SW_MINIMIZE)` + settle sleep of that attempt
(`true` = placement is `SW_SHOWMINIMIZED`).  The oracle is total, so the
source's per-attempt `except` branch (OS errors) is never taken.  The
sibling `src/src/core/utils/window_manager.py` generation differs only in
logging and per-window error capture and agrees with this model on every
oracle-generated execution. -/

/-- Window-source oracle for `minimize_window`, indexed by attempt number. -/
structure WindowOracle where
  windows : Nat → List Nat
  minimizedAfter : Nat → Nat → Bool

/-- The `for attempt in range(1, max_attempts + 1)` loop of
`minimize_window` (src/src/utils/window_manager.py, lines 71–139) over the
remaining attempt numbers.  Returns the `success` flag and the number of
loop iterations performed: no windows found → continue; windows found and
all placements minimized after the batch → `success = True`, `break`;
otherwise continue.  The final iteration falls through with `success`
unchanged. -/
def minimize_window_go (orc : WindowOracle) : List Nat → Bool × Nat
  | [] => (false, 0)
  | a :: rest =>
    let ws := orc.windows a
    if ws.isEmpty then
      let r := minimize_window_go orc rest
      (r.1, r.2 + 1)
    else if ws.all (fun hw => orc.minimizedAfter a hw) then (true, 1)
    else
      let r := minimize_window_go orc rest
      (r.1, r.2 + 1)

/-- `WindowManager.minimize_window`: immediately `False` when the Windows
modules are unavailable, else the attempt loop over attempts
`1 … max_attempts`. -/
def minimize_window (winAvailable : Bool) (orc : WindowOracle) (maxAttempts : Nat) :
    Bool × Nat :=
  if !winAvailable then (false, 0)
  else minimize_window_go orc (List.range' 1 maxAttempts)

/-! ## C8 — minimization convergence in exactly k+1 attempts -/

/-- Attempt-shifted form of C8 for the loop: if the first `j` attempts from
`s` on find windows but never confirm minimization, and attempt `s + j`
(with `j < n`) finds windows all confirmed minimized, the loop returns
`true` after exactly `j + 1` iterations. -/
theorem minimize_window_go_converges (orc : WindowOracle) :
    ∀ (j n s : Nat), j < n →
    (∀ i, i < j → orc.windows (s + i) ≠ [] ∧
      (orc.windows (s + i)).all (fun hw => orc.minimizedAfter (s + i) hw) = false) →
    (orc.windows (s + j) ≠ [] ∧
      (orc.windows (s + j)).all (fun hw => orc.minimizedAfter (s + j) hw) = true) →
    minimize_window_go orc (List.range' s n) = (true, j + 1) := by
  intro j
  induction j with
  | zero =>
    intro n s hjn _ hsucc
    obtain ⟨n', rfl⟩ : ∃ n', n = n' + 1 := ⟨n - 1, by omega⟩
    have hne : (orc.windows s).isEmpty = false := by
      rcases hsucc with ⟨hw, _⟩
      cases hws : orc.windows s with
      | nil => exact absurd hws hw
      | cons x xs => rfl
    have hall : (orc.windows s).all (fun hw => orc.minimizedAfter s hw) = true := by
      simpa using hsucc.2
    simp [List.range'_succ, minimize_window_go, hne, hall]
  | succ j ih =>
    intro n s hjn hfail hsucc
    obtain ⟨n', rfl⟩ : ∃ n', n = n' + 1 := ⟨n - 1, by omega⟩
    have hhead := hfail 0 (Nat.succ_pos j)
    have hne : (orc.windows s).isEmpty = false := by
      rcases hhead with ⟨hw, _⟩
      cases hws : orc.windows s with
      | nil => exact absurd hws hw
      | cons x xs => rfl
    have hallf : (orc.windows s).all (fun hw => orc.minimizedAfter s hw) = false := by
      simpa using hhead.2
    have hrec := ih n' (s + 1) (by omega)
      (fun i hi => by
        have := hfail (i + 1) (by omega)
        have hs : s + (i + 1) = s + 1 + i := by omega
        rwa [hs] at this)
      (by
        have hs : s + (j + 1) = s + 1 + j := by omega
        rwa [hs] at hsucc)
    simp [List.range'_succ, minimize_window_go, hne, hallf, hrec]

/-- **C8**: with the window capability available, if a window source finds
windows on every attempt but confirms them minimized for the first time on
attempt `k + 1` (reporting not-minimized on attempts `1 … k`, `k <
maxAttempts`), `minimize_window` returns `true` and performs exactly
`k + 1` attempts — it short-circuits on the first attempt whose found
windows all report minimized. -/
theorem minimize_window_convergence (orc : WindowOracle) (k maxAttempts : Nat)
    (hk : k < maxAttempts)
    (hfail : ∀ a ∈ List.range' 1 k, orc.windows a ≠ [] ∧
      (orc.windows a).all (fun hw => orc.minimizedAfter a hw) = false)
    (hsucc : orc.windows (k + 1) ≠ [] ∧
      (orc.windows (k + 1)).all (fun hw => orc.minimizedAfter (k + 1) hw) = true) :
    minimize_window true orc maxAttempts = (true, k + 1) := by
  unfold minimize_window
  rw [if_neg (by simp)]
  refine minimize_window_go_converges orc k maxAttempts 1 hk ?_ ?_
  · intro i hi
    have hmem : 1 + i ∈ List.range' 1 k := by
      rw [List.mem_range'_1]
      omega
    have := hfail (1 + i) hmem
    exact this
  · have hs : 1 + k = k + 1 := by omega
    rw [hs]
    exact hsucc

/-- Concrete window oracle for the C8 witness: one window (handle 10) found
every attempt, confirmed minimized from attempt 3 on. -/
def worcC8 : WindowOracle := ⟨fun _ => [10], fun a _ => decide (2 < a)⟩

/-- C8 witness: `minimize_window_convergence` at `k = 2`, `maxAttempts = 5`
on `worcC8` — `minimize_window` returns `true` after exactly 3 attempts. -/
theorem minimize_window_convergence_witness :
    (2 < 5) ∧
    minimize_window true worcC8 5 = (true, 2 + 1) :=
  ⟨by decide,
   minimize_window_convergence worcC8 2 5 (by decide) (by decide) (by decide)⟩

/-! ## C6 — persistent minimization: timeout vs. attempt budget -/

/-- Result of `_minimize_program_persistently`: success flag, elapsed
wall-clock milliseconds at return, number of loop iterations that performed
a minimization attempt. -/
structure PersistResult where
  ok : Bool
  elapsed : Nat
  attemptsDone : Nat
deriving Repr, DecidableEq

/-- The `for attempt in range(1, max_attempts + 1)` loop of
`ProcessManager._minimize_program_persistently`
(src/src/core/process_manager.py, lines 154–198), with wall-clock time made
explicit (milliseconds).  Each iteration: if elapsed time strictly exceeds
`timeout_seconds`, return `False`; if the pid is no longer running, return
`False`; call `self._window_manager.minimize_window` (outcome `inner a`,
consuming `dur a` time); on success return `True`; else sleep `retry_delay`
and continue.  Falling off the loop returns `False`. -/
def minimize_persistently_go (inner : Nat → Bool) (dur : Nat → Nat)
    (alive : Nat → Bool) (retryDelay timeoutMs : Nat) :
    List Nat → Nat → PersistResult
  | [], t => ⟨false, t, 0⟩
  | a :: rest, t =>
    if timeoutMs < t then ⟨false, t, 0⟩
    else if !(alive a) then ⟨false, t, 0⟩
    else if inner a then ⟨true, t + dur a, 1⟩
    else
      let r := minimize_persistently_go inner dur alive retryDelay timeoutMs
        rest (t + dur a + retryDelay)
      ⟨r.ok, r.elapsed, r.attemptsDone + 1⟩

/-- `ProcessManager._minimize_program_persistently`: short-circuit `True`
when the program starts in the tray, else the timed attempt loop starting
at elapsed time 0. -/
def minimize_program_persistently (startsInTray : Bool) (inner : Nat → Bool)
    (dur : Nat → Nat) (alive : Nat → Bool)
    (maxAttempts retryDelay timeoutMs : Nat) : PersistResult :=
  if startsInTray then ⟨true, 0, 0⟩
  else minimize_persistently_go inner dur alive retryDelay timeoutMs
    (List.range' 1 maxAttempts) 0

/-- **C6 counterexample**: with `retryDelay = 2`, `maxAttempts = 3`,
`timeoutSeconds = 5` (so `retryDelay * maxAttempts = 6 > 5`), a process
that stays alive and a window that never confirms minimized,
`_minimize_program_persistently` runs all 3 = `maxAttempts` attempts and
returns `false` at elapsed time 6 — strictly after `timeoutSeconds`, and
only after exhausting the attempt budget: the timeout check at the loop
head never trips because `(maxAttempts - 1) * retryDelay = 4 ≤ 5`. -/
theorem minimize_persistently_timeout_counterexample :
    (5 : Nat) < 2 * 3 ∧
    minimize_program_persistently false (fun _ => false) (fun _ => 0)
      (fun _ => true) 3 2 5 = ⟨false, 6, 3⟩ ∧
    ¬((6 : Nat) ≤ 5) := by decide

/-- Bound for the C6 loop: on a schedule where the process stays alive, the
inner minimize never succeeds and each inner call takes at most `D`,
starting from elapsed time within the bound, the loop returns `false` with
elapsed time at most `timeoutMs + D + retryDelay` and at most one
iteration per scheduled attempt. -/
theorem minimize_persistently_go_bound (inner : Nat → Bool) (dur : Nat → Nat)
    (alive : Nat → Bool) (retryDelay timeoutMs D : Nat) :
    ∀ (l : List Nat) (t : Nat),
    (∀ i ∈ l, alive i = true ∧ inner i = false ∧ dur i ≤ D) →
    t ≤ timeoutMs + D + retryDelay →
    (minimize_persistently_go inner dur alive retryDelay timeoutMs l t).ok = false ∧
    (minimize_persistently_go inner dur alive retryDelay timeoutMs l t).elapsed
      ≤ timeoutMs + D + retryDelay ∧
    (minimize_persistently_go inner dur alive retryDelay timeoutMs l t).attemptsDone
      ≤ l.length := by
  intro l
  induction l with
  | nil =>
    intro t _ ht
    exact ⟨rfl, ht, Nat.le_refl 0⟩
  | cons a rest ih =>
    intro t hl ht
    obtain ⟨ha, hi, hd⟩ := hl a (List.mem_cons_self a rest)
    by_cases hto : timeoutMs < t
    · refine ⟨?_, ?_, ?_⟩ <;> simp [minimize_persistently_go, hto, ht]
    · have hle : t ≤ timeoutMs := Nat.not_lt.mp hto
      have ht' : t + dur a + retryDelay ≤ timeoutMs + D + retryDelay := by omega
      have hrec := ih (t + dur a + retryDelay)
        (fun i hmem => hl i (List.mem_cons_of_mem a hmem)) ht'
      refine ⟨?_, ?_, ?_⟩ <;>
        simp [minimize_persistently_go, hto, ha, hi, hrec.1, hrec.2.1,
          Nat.succ_le_succ hrec.2.2]

/-- **C6 (amended)**: with `startsInTray` false, the process alive
throughout, the window never confirmed minimized, and every inner
`minimize_window` call taking at most `D` wall-clock,
`_minimize_program_persistently` returns `false` within `timeoutMs + D +
retryDelay` elapsed wall-clock — i.e. it may overshoot `timeoutSeconds` by
up to one iteration (the timeout is only checked at the top of each
iteration) — and performs at most `maxAttempts` attempts; it is not
guaranteed to stop before `maxAttempts` is exhausted (when
`(maxAttempts - 1) * retryDelay ≤ timeoutSeconds` it runs every attempt,
as the counterexample shows). -/
theorem minimize_persistently_bounded (inner : Nat → Bool) (dur : Nat → Nat)
    (alive : Nat → Bool) (maxAttempts retryDelay timeoutMs D : Nat)
    (hsched : ∀ i ∈ List.range' 1 maxAttempts,
      alive i = true ∧ inner i = false ∧ dur i ≤ D) :
    (minimize_program_persistently false inner dur alive
        maxAttempts retryDelay timeoutMs).ok = false ∧
    (minimize_program_persistently false inner dur alive
        maxAttempts retryDelay timeoutMs).elapsed ≤ timeoutMs + D + retryDelay ∧
    (minimize_program_persistently false inner dur alive
        maxAttempts retryDelay timeoutMs).attemptsDone ≤ maxAttempts := by
  have h := minimize_persistently_go_bound inner dur alive retryDelay timeoutMs D
    (List.range' 1 maxAttempts) 0 hsched (Nat.zero_le _)
  have hlen : (List.range' 1 maxAttempts).length = maxAttempts := by
    simp [List.length_range']
  unfold minimize_program_persistently
  rw [if_neg (by simp)]
  refine ⟨h.1, h.2.1, ?_⟩
  have := h.2.2
  rwa [hlen] at this

/-- C6 witness: `minimize_persistently_bounded` at the counterexample's
parameters with inner-call duration bound `D = 0`: returns `false` with
elapsed at most `5 + 0 + 2 = 7` and at most 3 attempts. -/
theorem minimize_persistently_bounded_witness :
    (minimize_program_persistently false (fun _ => false) (fun _ => 0)
        (fun _ => true) 3 2 5).ok = false ∧
    (minimize_program_persistently false (fun _ => false) (fun _ => 0)
        (fun _ => true) 3 2 5).elapsed ≤ 5 + 0 + 2 ∧
    (minimize_program_persistently false (fun _ => false) (fun _ => 0)
        (fun _ => true) 3 2 5).attemptsDone ≤ 3 :=
  minimize_persistently_bounded (fun _ => false) (fun _ => 0) (fun _ => true)
    3 2 5 0 (by decide)

/-! ## Startup sequencer (`start_all_programs`)

`_handle_program_startup_and_minimization` and `start_all_programs`
(src/src/core/process_manager.py, lines 67–152 and 223–278).  The
`arguments` string and the initial sleep before minimization only shape the
spawn command line and timing, not the modelled state, and are omitted.
The `ThreadPoolExecutor` submitting the helper handlers is serialized in
submission order; submission happens only after the main handler returned.
`subprocess.Popen` is assumed to spawn (an exception there would abort the
handler with `False`; the oracle does not produce one). -/

/-- The configuration dict of one program, with the `.get(...)` defaults
already resolved. -/
structure ProgramConfig where
  name : String
  path : String
  is_main : Bool
  starts_in_tray : Bool
  max_minimize_attempts : Nat
  minimize_retry_delay : Nat
  minimize_timeout : Nat
deriving Repr, DecidableEq

/-- OS oracle for the startup sequencer: path existence, the pid `Popen`
assigns, whether the main program is still alive after its 2-second settle
poll, the per-process termination-oracle state, and the persistent
minimization oracles for each helper, keyed by program name. -/
structure Os where
  pathExists : String → Bool
  spawnPid : String → Nat
  mainAliveAfterLaunch : String → Bool
  procState : String → ProcState
  minimizeInner : String → Nat → Bool
  minimizeDur : String → Nat → Nat
  pidAlive : String → Nat → Bool

/-- Observable startup events: `subprocess.Popen` invoked for a program,
the handler returning with its success flag, and
`_minimize_program_persistently` being invoked for a program. -/
inductive StartEvent where
  | launchStart (name : String)
  | launchDone (name : String) (ok : Bool)
  | minimizeRun (name : String)
deriving Repr, DecidableEq

/-- `ProcessManager._handle_program_startup_and_minimization`: missing path
→ failure before `Popen`; for a config with `is_main` true: `Popen`, settle,
re-poll — immediate death is a failure (entry never stored), else store the
entry with `was_minimized = True` and record the program as the main one;
for a helper: `Popen`, store the entry with `was_minimized = False`, run
`_minimize_program_persistently`, and write its outcome back into the entry
if the name is still tracked. -/
def handle_program_startup_and_minimization (os : Os) (s : PMState)
    (cfg : ProgramConfig) : Bool × PMState × List StartEvent :=
  if !(os.pathExists cfg.path) then
    (false, s, [StartEvent.launchDone cfg.name false])
  else
    let pid := os.spawnPid cfg.name
    if cfg.is_main then
      if !(os.mainAliveAfterLaunch cfg.name) then
        (false, s,
          [StartEvent.launchStart cfg.name, StartEvent.launchDone cfg.name false])
      else
        (true,
         ⟨dictInsert s.processes cfg.name ⟨pid, os.procState cfg.name, true⟩,
          s.terminated, some cfg.name⟩,
         [StartEvent.launchStart cfg.name, StartEvent.launchDone cfg.name true])
    else
      let entry : ProcEntry := ⟨pid, os.procState cfg.name, false⟩
      let s1 : PMState :=
        ⟨dictInsert s.processes cfg.name entry, s.terminated, s.mainProgramName⟩
      let r := minimize_program_persistently cfg.starts_in_tray
        (os.minimizeInner cfg.name) (os.minimizeDur cfg.name)
        (os.pidAlive cfg.name) cfg.max_minimize_attempts
        cfg.minimize_retry_delay cfg.minimize_timeout
      let s2 : PMState :=
        if (s1.processes.lookup cfg.name).isSome then
          ⟨dictInsert s1.processes cfg.name { entry with wasMinimized := r.ok },
           s1.terminated, s1.mainProgramName⟩
        else s1
      (true, s2,
        [StartEvent.launchStart cfg.name, StartEvent.minimizeRun cfg.name,
         StartEvent.launchDone cfg.name true])

/-- The partition loop at the top of `start_all_programs` (lines 228–239):
first flagged config becomes the main candidate; every further flagged
config is appended to the helper list with a "Multiple main programs
defined. Using the first one." warning (third component); unflagged configs
are appended to the helper list. -/
def partition_go :
    Option ProgramConfig × List ProgramConfig × Bool → List ProgramConfig →
    Option ProgramConfig × List ProgramConfig × Bool
  | acc, [] => acc
  | acc, cfg :: rest =>
    if cfg.is_main then
      match acc.1 with
      | some _ => partition_go (acc.1, acc.2.1 ++ [cfg], true) rest
      | none => partition_go (some cfg, acc.2.1, acc.2.2) rest
    else partition_go (acc.1, acc.2.1 ++ [cfg], acc.2.2) rest

/-- Partition of the configured programs into (main candidate, helpers in
declaration order, multiple-mains warning). -/
def partition_main (cfgs : List ProgramConfig) :
    Option ProgramConfig × List ProgramConfig × Bool :=
  partition_go (none, [], false) cfgs

/-- The helper-startup pool of `start_all_programs`, serialized in
submission order: run the handler on each helper config, threading the
manager state and concatenating the event traces. -/
def start_helpers (os : Os) (s : PMState) :
    List ProgramConfig → PMState × List StartEvent
  | [] => (s, [])
  | c :: cs =>
    let r := handle_program_startup_and_minimization os s c
    let rest := start_helpers os r.2.1 cs
    (rest.1, r.2.2 ++ rest.2)

/-- `ProcessManager.start_all_programs`: partition the configs; when a main
config exists, run its handler synchronously and abort (no helper started)
if it fails, else re-record the main program fields (lines 248–249) and
start the helpers; with no main config, start only the helpers. -/
def start_all_programs (os : Os) (s : PMState) (cfgs : List ProgramConfig) :
    PMState × List StartEvent :=
  match (partition_main cfgs).1 with
  | some m =>
    let r := handle_program_startup_and_minimization os s m
    if !r.1 then (r.2.1, r.2.2)
    else
      let s2 : PMState := ⟨r.2.1.processes, r.2.1.terminated, some m.name⟩
      let rest := start_helpers os s2 (partition_main cfgs).2.1
      (rest.1, r.2.2 ++ rest.2)
  | none =>
    let rest := start_helpers os s (partition_main cfgs).2.1
    (rest.1, rest.2)

/-! ## C3 — main launch completes before any helper launch -/

/-- The partition's main candidate always carries the `is_main` flag. -/
theorem partition_go_main_flag :
    ∀ (cfgs : List ProgramConfig)
      (acc : Option ProgramConfig × List ProgramConfig × Bool),
    (∀ m0, acc.1 = some m0 → m0.is_main = true) →
    ∀ m, (partition_go acc cfgs).1 = some m → m.is_main = true := by
  intro cfgs
  induction cfgs with
  | nil => intro acc hacc m hm; exact hacc m hm
  | cons c rest ih =>
    intro acc hacc m hm
    unfold partition_go at hm
    by_cases hc : c.is_main = true
    · rw [if_pos hc] at hm
      cases hacc1 : acc.1 with
      | some m0 =>
        rw [hacc1] at hm
        exact ih _ (fun m1 h1 => hacc m1 ((by rw [hacc1]; exact h1))) m hm
      | none =>
        rw [hacc1] at hm
        refine ih _ ?_ m hm
        intro m1 h1
        cases h1
        exact hc
    · rw [if_neg hc] at hm
      exact ih (acc.1, acc.2.1 ++ [c], acc.2.2) (fun m1 h1 => hacc m1 h1) m hm

/-- Specialization: a main candidate returned by `partition_main` has the
`is_main` flag. -/
theorem partition_main_flag (cfgs : List ProgramConfig) (m : ProgramConfig)
    (hm : (partition_main cfgs).1 = some m) : m.is_main = true :=
  partition_go_main_flag cfgs (none, [], false) (fun _ h => Option.noConfusion h) m hm

/-- A failing main-program handler leaves the manager state untouched (the
entry is stored only after the post-launch liveness check passes). -/
theorem handle_main_fail_state (os : Os) (s : PMState) (cfg : ProgramConfig)
    (h : cfg.is_main = true)
    (hf : (handle_program_startup_and_minimization os s cfg).1 = false) :
    (handle_program_startup_and_minimization os s cfg).2.1 = s := by
  unfold handle_program_startup_and_minimization at hf ⊢
  by_cases hp : os.pathExists cfg.path = true
  · by_cases ha : os.mainAliveAfterLaunch cfg.name = true
    · simp [hp, h, ha] at hf
    · have ha' : os.mainAliveAfterLaunch cfg.name = false := by
        cases hav : os.mainAliveAfterLaunch cfg.name
        · rfl
        · exact absurd hav ha
      simp [hp, h, ha']
  · have hp' : os.pathExists cfg.path = false := by
      cases hpv : os.pathExists cfg.path
      · rfl
      · exact absurd hpv hp
    simp [hp']

/-- The handler's trace always reports the handler's completion for its own
program. -/
theorem handle_done_mem (os : Os) (s : PMState) (cfg : ProgramConfig) :
    StartEvent.launchDone cfg.name
        (handle_program_startup_and_minimization os s cfg).1 ∈
      (handle_program_startup_and_minimization os s cfg).2.2 := by
  unfold handle_program_startup_and_minimization
  by_cases hp : os.pathExists cfg.path = true
  · by_cases hmn : cfg.is_main = true
    · by_cases ha : os.mainAliveAfterLaunch cfg.name = true
      · simp [hp, hmn, ha]
      · have ha' : os.mainAliveAfterLaunch cfg.name = false := by
          cases hav : os.mainAliveAfterLaunch cfg.name
          · rfl
          · exact absurd hav ha
        simp [hp, hmn, ha']
    · have hmn' : cfg.is_main = false := by
        cases hmv : cfg.is_main
        · rfl
        · exact absurd hmv hmn
      simp [hp, hmn']
  · have hp' : os.pathExists cfg.path = false := by
      cases hpv : os.pathExists cfg.path
      · rfl
      · exact absurd hpv hp
    simp [hp']

/-- Every event the handler emits names the handler's own program, so no
launch of a differently-named program appears in its trace. -/
theorem handle_no_other_launch (os : Os) (s : PMState) (cfg : ProgramConfig)
    (x : String) (hx : x ≠ cfg.name) :
    StartEvent.launchStart x ∉
      (handle_program_startup_and_minimization os s cfg).2.2 := by
  unfold handle_program_startup_and_minimization
  by_cases hp : os.pathExists cfg.path = true
  · by_cases hmn : cfg.is_main = true
    · by_cases ha : os.mainAliveAfterLaunch cfg.name = true
      · simp [hp, hmn, ha, hx]
      · have ha' : os.mainAliveAfterLaunch cfg.name = false := by
          cases hav : os.mainAliveAfterLaunch cfg.name
          · rfl
          · exact absurd hav ha
        simp [hp, hmn, ha', hx]
    · have hmn' : cfg.is_main = false := by
        cases hmv : cfg.is_main
        · rfl
        · exact absurd hmv hmn
      simp [hp, hmn', hx]
  · have hp' : os.pathExists cfg.path = false := by
      cases hpv : os.pathExists cfg.path
      · rfl
      · exact absurd hpv hp
    simp [hp', hx]

/-- **C3**: when the config list has a main candidate (and helper names
differ from the main's, as configuration requires), the `start_all_programs`
trace is the main handler's whole trace followed by the rest: the main
launch completes (success or failure, reported by its `launchDone` event,
which lies in that prefix while no helper `launchStart` does) before any
helper launch begins; and when the main launch fails, nothing follows the
main trace (no helper is launched) and, starting from a fresh manager, no
process is left tracked. -/
theorem start_all_main_before_helpers (os : Os) (s : PMState)
    (cfgs : List ProgramConfig) (m : ProgramConfig)
    (hm : (partition_main cfgs).1 = some m)
    (hn : ∀ c ∈ (partition_main cfgs).2.1, c.name ≠ m.name)
    (hs : s.processes = []) :
    (∃ rest, (start_all_programs os s cfgs).2 =
        (handle_program_startup_and_minimization os s m).2.2 ++ rest ∧
      ((handle_program_startup_and_minimization os s m).1 = false → rest = [])) ∧
    StartEvent.launchDone m.name
        (handle_program_startup_and_minimization os s m).1 ∈
      (handle_program_startup_and_minimization os s m).2.2 ∧
    (∀ c ∈ (partition_main cfgs).2.1,
      StartEvent.launchStart c.name ∉
        (handle_program_startup_and_minimization os s m).2.2) ∧
    ((handle_program_startup_and_minimization os s m).1 = false →
      (start_all_programs os s cfgs).1.processes = []) := by
  refine ⟨?_, handle_done_mem os s m, ?_, ?_⟩
  · cases hok : (handle_program_startup_and_minimization os s m).1 with
    | false =>
      refine ⟨[], ?_, fun _ => rfl⟩
      simp only [start_all_programs, hm]
      rw [hok]
      simp
    | true =>
      refine ⟨(start_helpers os
        ⟨(handle_program_startup_and_minimization os s m).2.1.processes,
         (handle_program_startup_and_minimization os s m).2.1.terminated,
         some m.name⟩ (partition_main cfgs).2.1).2, ?_, ?_⟩
      · simp only [start_all_programs, hm]
        rw [hok]
        simp
      · intro hbad
        exact Bool.noConfusion hbad
  · intro c hc
    exact handle_no_other_launch os s m c.name (hn c hc)
  · intro hf
    simp only [start_all_programs, hm]
    rw [hf]
    simp only [Bool.not_false, if_true]
    rw [handle_main_fail_state os s m (partition_main_flag cfgs m hm) hf]
    exact hs

/-- Concrete scenario for the C3 witness: a main config whose executable
path does not exist, plus one helper. -/
def cfgMC3 : ProgramConfig := ⟨"M", "m.exe", true, false, 6, 1000, 15000⟩

/-- Helper config of the C3 witness scenario. -/
def cfgHC3 : ProgramConfig := ⟨"H", "h.exe", false, true, 6, 1000, 15000⟩

/-- OS oracle of the C3 witness scenario: no path exists, so the main
launch fails. -/
def osC3 : Os :=
  ⟨fun _ => false, fun _ => 21, fun _ => true, fun _ => ⟨true, true, true⟩,
   fun _ _ => false, fun _ _ => 0, fun _ _ => true⟩

/-- C3 witness: `start_all_main_before_helpers` at the concrete
failing-main scenario. -/
theorem start_all_main_before_helpers_witness :
    (∃ rest, (start_all_programs osC3 pmInit [cfgMC3, cfgHC3]).2 =
        (handle_program_startup_and_minimization osC3 pmInit cfgMC3).2.2 ++ rest ∧
      ((handle_program_startup_and_minimization osC3 pmInit cfgMC3).1 = false →
        rest = [])) ∧
    StartEvent.launchDone cfgMC3.name
        (handle_program_startup_and_minimization osC3 pmInit cfgMC3).1 ∈
      (handle_program_startup_and_minimization osC3 pmInit cfgMC3).2.2 ∧
    (∀ c ∈ (partition_main [cfgMC3, cfgHC3]).2.1,
      StartEvent.launchStart c.name ∉
        (handle_program_startup_and_minimization osC3 pmInit cfgMC3).2.2) ∧
    ((handle_program_startup_and_minimization osC3 pmInit cfgMC3).1 = false →
      (start_all_programs osC3 pmInit [cfgMC3, cfgHC3]).1.processes = []) :=
  start_all_main_before_helpers osC3 pmInit [cfgMC3, cfgHC3] cfgMC3
    (by decide) (by decide) rfl

/-! ## C9 — duplicate main flags -/

/-- First config of the duplicate-main scenario. -/
def cfgA : ProgramConfig := ⟨"A", "a.exe", true, false, 6, 1000, 15000⟩

/-- Second config of the duplicate-main scenario, also flagged main. -/
def cfgB : ProgramConfig := ⟨"B", "b.exe", true, false, 6, 1000, 15000⟩

/-- OS oracle of the duplicate-main scenario: both paths exist and both
programs survive launch. -/
def osC9 : Os :=
  ⟨fun _ => true, fun n => if n == "A" then 11 else 12, fun _ => true,
   fun _ => ⟨true, true, true⟩, fun _ _ => false, fun _ _ => 0, fun _ _ => true⟩

/-- **C9**: with two configs both flagged `is_main`, the partition does use
the first as the main program and queues the second as a "helper" with the
multiple-mains warning, and no exception is raised (the embedding is total)
— but the second flagged config is *not* treated as an ordinary helper:
its handler re-reads `is_main = True`, so `start_all_programs` runs it
through the main-program path, never invokes persistent minimization for
it, stores it with `was_minimized = True`, and overwrites
`main_program_name` with `"B"`, contradicting the first-wins treatment the
code's own warning ("Using the first one") and helper-list comment promise. -/
theorem duplicate_main_flag_bug :
    (partition_main [cfgA, cfgB]).1 = some cfgA ∧
    (partition_main [cfgA, cfgB]).2.1 = [cfgB] ∧
    (partition_main [cfgA, cfgB]).2.2 = true ∧
    (start_all_programs osC9 pmInit [cfgA, cfgB]).1.mainProgramName = some "B" ∧
    StartEvent.minimizeRun "B" ∉ (start_all_programs osC9 pmInit [cfgA, cfgB]).2 ∧
    ((start_all_programs osC9 pmInit [cfgA, cfgB]).1.processes.lookup "B").map
      (fun e => e.wasMinimized) = some true := by decide

end IRM
